import Mathlib

/-!
# Verification of the cthreading synchronization core

A shallow embedding of `src/cthreading/_cthreading.c` (Lock, RLock,
Condition, the intrusive FIFO wait queue and the deadline arithmetic),
together with proofs of the specification claims about it.

Modelling conventions:

* C `double` timeout values are modelled as exact rationals (every finite
  IEEE double is a rational); the C cast `(long)x` is truncation toward
  zero, modelled by `ctrunc`.
* C `long` / `int` values are modelled as `Int` (signed overflow is
  undefined behaviour in C, so the mathematical integers are the defined
  semantics); the `unsigned long` recursion counter of RLock is modelled
  as a `Nat` reduced mod 2^64 exactly where the code's own wrap check
  `count + 1 <= count` depends on it.
* A POSIX semaphore is its counter, a `Nat`.  `sem_post` fails (EOVERFLOW)
  when the counter is at `SEM_VALUE_MAX`; `sem_trywait` on a positive
  counter succeeds, otherwise reports EAGAIN.
* Functions are sequentialized: each model function runs one C call to
  completion with no interleaving thread.  A blocking `sem_wait` with no
  possible poster never returns; such calls are modelled by `Option`,
  `none` meaning the call never returns (or hits C undefined behaviour,
  noted where it applies).  Python exceptions are `Except PyErr`.
* Pointers into the intrusive wait queue are modelled by `Ptr`: the
  distinguished `WAITER_UNUSED` sentinel (`(struct waiter *)-1`), the
  null pointer, or a waiter identity (a `Nat` standing for its address).
  The waiter heap is a total map from identities to node contents.
-/

/- ### C numeric constants -/

def INT_MAX : Int := 2147483647

/-- Linux value of `SEM_VALUE_MAX` (the largest POSIX semaphore count). -/
def SEM_VALUE_MAX : Nat := 2147483647

/-- Number of values of a 64-bit `unsigned long`. -/
def ULONG_CARD : Nat := 18446744073709551616

/-- The C cast `(long)q` for a rational `q`: truncation toward zero.
With `q` in reduced form `num/den`, `den > 0`, this is `num.tdiv den`. -/
def ctrunc (q : ℚ) : Int := q.num.tdiv (q.den : Int)

/- ### deadline_from_timeout -/

structure Timeval where
  sec : Int
  usec : Int
deriving DecidableEq, Repr

structure Timespec where
  sec : Int
  nsec : Int
deriving DecidableEq, Repr

/-- Model of `deadline_from_timeout` (`_cthreading.c:50-77`).  Computes the absolute
deadline `now + timeout`, saturating the seconds at `INT_MAX`.  The current
time returned by `gettimeofday` is passed in as `now`.  `USEC_PER_SEC =
1000000`, `NSEC_PER_USEC = 1000`. -/
def deadline_from_timeout (timeout : ℚ) (now : Timeval) : Timespec :=
  let timeout_sec : Int := ctrunc timeout
  let timeout_usec : Int := ctrunc ((timeout - (ctrunc timeout : Int)) * 1000000)
  let sec0 : Int := if now.sec ≤ INT_MAX - timeout_sec then now.sec + timeout_sec else INT_MAX
  let usec0 : Int := now.usec + timeout_usec
  let sec1 : Int := if 1000000 < usec0 then (if sec0 ≤ INT_MAX - 1 then sec0 + 1 else sec0) else sec0
  let usec1 : Int := if 1000000 < usec0 then usec0 - 1000000 else usec0
  ⟨sec1, usec1 * 1000⟩

/- ### Python-level errors and timeout parsing -/

inductive PyErr where
  | ValueError
  | RuntimeError
  | OverflowError
  | OSError
  | ThreadError
deriving DecidableEq, Repr

/-- The `UNLIMITED` sentinel `(-1)` meaning "no timeout". -/
def UNLIMITED : ℚ := -1

/-- Model of `parse_timeout` (`_cthreading.c:81-102`).  The Python object argument is
either `None` (`none`) or a float value (`some v`).  (The
`PyFloat_AsDouble` conversion-failure path is outside the model: the input
is already a number.) -/
def parse_timeout (obj : Option ℚ) : Except PyErr ℚ :=
  match obj with
  | none => .ok UNLIMITED
  | some value =>
    if value < 0 ∧ value ≠ UNLIMITED then .error .ValueError
    else .ok value

/-- Model of `acquire_parse_args` (`_cthreading.c:107-134`).  `blocking` is the C
`int` parsed from the Python argument (default 1); `obj` the timeout
argument (default `None`). -/
def acquire_parse_args (blocking : Int) (obj : Option ℚ) : Except PyErr ℚ :=
  match parse_timeout obj with
  | .error e => .error e
  | .ok value =>
    if blocking = 0 ∧ value ≠ UNLIMITED then .error .ValueError
    else .ok (if blocking ≠ 0 then value else 0)

/- ### Semaphore wrapper: acquire_lock / release_lock -/

inductive AcquireResult where
  | ok      -- ACQUIRE_OK
  | fail    -- ACQUIRE_FAIL
  | error   -- ACQUIRE_ERROR
deriving DecidableEq, Repr

/-- Model of `acquire_lock` (`_cthreading.c:142-191`) in the sequential model: no
other thread posts the semaphore while this call runs.  `sem_trywait`
succeeds iff the counter is positive; with `timeout = 0` a failed trywait
is ACQUIRE_FAIL; with a positive timeout `sem_timedwait` expires
(ACQUIRE_FAIL); with the unlimited timeout `sem_wait` never returns
(`none`). -/
def acquire_lock (sem : Nat) (timeout : ℚ) : Option (AcquireResult × Nat) :=
  if 0 < sem then some (.ok, sem - 1)
  else if timeout = 0 then some (.fail, sem)
  else if 0 < timeout then some (.fail, sem)
  else none

/-- Model of `release_lock` (`_cthreading.c:193-207`): `sem_post`, which fails with
EOVERFLOW (and leaves the counter unchanged) iff the counter is at
`SEM_VALUE_MAX`; `none` is that error path. -/
def release_lock (sem : Nat) : Option Nat :=
  if sem < SEM_VALUE_MAX then some (sem + 1) else none

/- ### Lock -/

/-- A `Lock` (`_cthreading.c:211-216`): the semaphore counter and the
owner thread id (`0` = no owner; `PyThread_get_thread_ident` never
returns 0). -/
structure LockState where
  sem : Nat
  owner : Int
deriving DecidableEq, Repr

/-- Model of `Lock_new`: the initial state: semaphore count 1, no owner. -/
def Lock_new : LockState := ⟨1, 0⟩

/-- Model of `Lock_acquire` (`_cthreading.c:261-278`).  `tid` is the calling
thread's identity. -/
def Lock_acquire (st : LockState) (tid : Int) (blocking : Int) (obj : Option ℚ) :
    Option (Except PyErr Bool × LockState) :=
  match acquire_parse_args blocking obj with
  | .error e => some (.error e, st)
  | .ok timeout =>
    match acquire_lock st.sem timeout with
    | none => none
    | some (.error, sem') => some (.error .OSError, { st with sem := sem' })
    | some (.ok, sem') => some (.ok true, { sem := sem', owner := tid })
    | some (.fail, sem') => some (.ok false, { st with sem := sem' })

/-- Model of `Lock_release` (`_cthreading.c:280-298`).  Note: the calling thread's
identity is never consulted; the only check is `self->owner == 0`. -/
def Lock_release (st : LockState) : Except PyErr Unit × LockState :=
  if st.owner = 0 then (.error .ThreadError, st)
  else
    match release_lock st.sem with
    | none => (.error .OSError, st)          -- sem_post failed: owner still set
    | some sem' => (.ok (), ⟨sem', 0⟩)       -- signal first, then clear owner

/-- Model of `Lock_locked` (`_cthreading.c:300-304`): truthiness of `owner`. -/
def Lock_locked (st : LockState) : Bool := st.owner ≠ 0

/-- Model of `Lock_is_owned` (`_cthreading.c:306-311`). -/
def Lock_is_owned (st : LockState) (tid : Int) : Bool := st.owner = tid

/-- Model of `Lock_release_save` (`_cthreading.c:313-334`): on success returns the
saved state (the owner id). -/
def Lock_release_save (st : LockState) : Except PyErr Int × LockState :=
  if st.owner = 0 then (.error .RuntimeError, st)
  else
    match release_lock st.sem with
    | none => (.error .OSError, st)
    | some sem' => (.ok st.owner, ⟨sem', 0⟩)

/-- Model of `Lock_acquire_restore` (`_cthreading.c:336-357`): blocking reacquire
(timeout `UNLIMITED`), then the owner field is set from the saved state. -/
def Lock_acquire_restore (st : LockState) (owner : Int) :
    Option (Except PyErr Unit × LockState) :=
  match acquire_lock st.sem UNLIMITED with
  | none => none
  | some (.error, sem') => some (.error .OSError, { st with sem := sem' })
  | some (_, sem') => some (.ok (), ⟨sem', owner⟩)

/-- The entries of `Lock_methods` (`_cthreading.c:359-369`). -/
def Lock_method_names : List String :=
  ["acquire", "__enter__", "release", "__exit__", "locked",
   "_is_owned", "_release_save", "_acquire_restore"]

/- ### RLock -/

/-- An `RLock` (`_cthreading.c:415-421`): semaphore, owner and the
`unsigned long` recursion count. -/
structure RLockState where
  sem : Nat
  owner : Int
  count : Nat
deriving DecidableEq, Repr

/-- Model of `RLock_new`: the initial state. -/
def RLock_new : RLockState := ⟨1, 0, 0⟩

/-- Model of `RLock_acquire` (`_cthreading.c:467-501`).  The reentrant fast path
(`count > 0 && owner == tid`) increments the count without touching the
semaphore; the wrap check is `count + 1 <= count` in `unsigned long`
arithmetic. -/
def RLock_acquire (st : RLockState) (tid : Int) (blocking : Int) (obj : Option ℚ) :
    Option (Except PyErr Bool × RLockState) :=
  match acquire_parse_args blocking obj with
  | .error e => some (.error e, st)
  | .ok timeout =>
    if 0 < st.count ∧ st.owner = tid then
      let count := (st.count + 1) % ULONG_CARD
      if count ≤ st.count then some (.error .OverflowError, st)
      else some (.ok true, { st with count := count })
    else
      match acquire_lock st.sem timeout with
      | none => none
      | some (.error, sem') => some (.error .OSError, { st with sem := sem' })
      | some (.ok, sem') => some (.ok true, ⟨sem', tid, 1⟩)
      | some (.fail, sem') => some (.ok false, { st with sem := sem' })

/-- Model of `RLock_release` (`_cthreading.c:503-527`). -/
def RLock_release (st : RLockState) (tid : Int) : Except PyErr Unit × RLockState :=
  if st.count = 0 ∨ st.owner ≠ tid then (.error .RuntimeError, st)
  else if 1 < st.count then (.ok (), { st with count := st.count - 1 })
  else
    match release_lock st.sem with
    | none => (.error .OSError, st)
    | some sem' => (.ok (), ⟨sem', 0, 0⟩)

/-- Model of `RLock_is_owned` (`_cthreading.c:529-534`). -/
def RLock_is_owned (st : RLockState) (tid : Int) : Bool :=
  0 < st.count ∧ st.owner = tid

/-- Model of `RLock_release_save` (`_cthreading.c:536-558`): the saved state is the
pair `(count, owner)`. -/
def RLock_release_save (st : RLockState) : Except PyErr (Nat × Int) × RLockState :=
  if st.count = 0 then (.error .RuntimeError, st)
  else
    match release_lock st.sem with
    | none => (.error .OSError, st)
    | some sem' => (.ok (st.count, st.owner), ⟨sem', 0, 0⟩)

/-- Model of `RLock_acquire_restore` (`_cthreading.c:560-584`). -/
def RLock_acquire_restore (st : RLockState) (saved : Nat × Int) :
    Option (Except PyErr Unit × RLockState) :=
  match acquire_lock st.sem UNLIMITED with
  | none => none
  | some (.error, sem') => some (.error .OSError, { st with sem := sem' })
  | some (_, sem') => some (.ok (), ⟨sem', saved.2, saved.1⟩)

/-- The entries of `RLock_methods` (`_cthreading.c:586-595`).  Unlike
`Lock_methods`, there is no `locked` entry. -/
def RLock_method_names : List String :=
  ["acquire", "__enter__", "release", "__exit__",
   "_is_owned", "_release_save", "_acquire_restore"]

/- ### The intrusive wait queue (`waitq`, `_cthreading.c:639-721`) -/

/-- A `struct waiter *` value: the `WAITER_UNUSED` sentinel
(`(struct waiter *)-1`), `NULL`, or the address of a waiter. -/
inductive Ptr where
  | unused
  | null
  | node (i : Nat)
deriving DecidableEq, Repr

/-- The contents of a `struct waiter` (`_cthreading.c:643-647`): the
private semaphore counter and the two intrusive links. -/
structure Node where
  sem : Nat
  next : Ptr
  prev : Ptr
deriving DecidableEq, Repr

/-- The heap of waiters: node contents at every waiter identity. -/
def Heap : Type := Nat → Node

/-- Pointwise heap update (a store through a waiter pointer). -/
def updNode (h : Heap) (i : Nat) (n : Node) : Heap :=
  fun j => if j = i then n else h j

/-- Model of `struct waitq` (`_cthreading.c:670-674`): head and tail pointers and a
C `int` count. -/
structure Waitq where
  first : Ptr
  last : Ptr
  count : Int
deriving DecidableEq, Repr

/-- Model of `waitq_init` (`_cthreading.c:676-681`). -/
def waitq_init : Waitq := ⟨.null, .null, 0⟩

/-- Model of `waiter_init` (`_cthreading.c:649-661`): both links set to the
`WAITER_UNUSED` sentinel, the private semaphore initialized to 0
(blocked).  (The `sem_init` failure path is not modelled.) -/
def waiter_init (h : Heap) (w : Nat) : Heap :=
  updNode h w ⟨0, .unused, .unused⟩

/-- Model of `waitq_append` (`_cthreading.c:683-699`).  The C code `assert`s that
the waiter is unlinked; the assertion is a proof obligation of the
theorems, not a run-time branch.  `if (waitq->last)` tests pointer
truthiness: dereferencing a truthy non-node (`WAITER_UNUSED`) is
undefined behaviour, returned as `none`. -/
def waitq_append (h : Heap) (q : Waitq) (w : Nat) : Option (Heap × Waitq) :=
  let h1 := updNode h w { h w with next := .null, prev := q.last }
  match q.last with
  | .null => some (h1, ⟨.node w, .node w, q.count + 1⟩)
  | .node l =>
    let h2 := updNode h1 l { h1 l with next := .node w }
    some (h2, ⟨q.first, .node w, q.count + 1⟩)
  | .unused => none

/-- The tail of `waitq_remove` after the `waiter->prev` branch: the
`if (waiter->next)` branch, the link reset to `WAITER_UNUSED` and the
count decrement.  Fields are re-read from the current heap exactly as the
C code re-reads memory. -/
def waitq_remove_finish (h1 : Heap) (q1 : Waitq) (w : Nat) : Option (Heap × Waitq) :=
  match (h1 w).next with
  | .unused => none
  | .node nx =>
    let h2 := updNode h1 nx { h1 nx with prev := (h1 w).prev }
    let h3 := updNode h2 w { h2 w with next := .unused, prev := .unused }
    some (h3, { q1 with count := q1.count - 1 })
  | .null =>
    let q2 := { q1 with last := (h1 w).prev }
    let h3 := updNode h1 w { h1 w with next := .unused, prev := .unused }
    some (h3, { q2 with count := q2.count - 1 })

/-- Model of `waitq_remove` (`_cthreading.c:701-721`).  Removal of a waiter whose
`next` link is the `WAITER_UNUSED` sentinel is an immediate no-op.
Dereferencing a truthy `WAITER_UNUSED` link is undefined behaviour
(`none`). -/
def waitq_remove (h : Heap) (q : Waitq) (w : Nat) : Option (Heap × Waitq) :=
  if (h w).next = Ptr.unused then some (h, q)
  else
    match (h w).prev with
    | .unused => none
    | .node p => waitq_remove_finish (updNode h p { h p with next := (h w).next }) q w
    | .null => waitq_remove_finish h { q with first := (h w).next } w

/- ### Condition (`_cthreading.c:723-999`) -/

/-- A `Condition` over its default underlying lock: `Condition_init` with
`lock=None` constructs a fresh `RLock` (`_cthreading.c:755-758`), and all
five bound methods (`acquire`, `release`, `_is_owned`, `_release_save`,
`_acquire_restore`) resolve to the RLock operations modelled above. -/
structure CondState where
  lock : RLockState
  heap : Heap
  waiters : Waitq

/-- Model of `Condition_is_owned_internal` (`_cthreading.c:865-876`): calls the
lock's `_is_owned`. -/
def Condition_is_owned_internal (st : CondState) (tid : Int) : Bool :=
  RLock_is_owned st.lock tid

/-- The loop of `Condition_notify_waiters` (`_cthreading.c:889-894`):
`for (i = 0; i < count && self->waiters.first != NULL; i++)` signal the
first waiter's private semaphore, then unlink it.  `fuel` is the
remaining iteration budget `count - i`.  Returns the final heap and
queue and the waiters signalled, in order; a `release_lock` failure
aborts the loop with the error (`return NULL`). -/
def notify_loop (fuel : Nat) (h : Heap) (q : Waitq) :
    Option (Except PyErr Unit × Heap × Waitq × List Nat) :=
  match fuel with
  | 0 => some (.ok (), h, q, [])
  | fuel' + 1 =>
    match q.first with
    | .null => some (.ok (), h, q, [])
    | .unused => none
    | .node w =>
      match release_lock (h w).sem with
      | none => some (.error .OSError, h, q, [])
      | some s =>
        let h1 := updNode h w { h w with sem := s }
        match waitq_remove h1 q w with
        | none => none
        | some (h2, q2) =>
          match notify_loop fuel' h2 q2 with
          | none => none
          | some (r, h3, q3, tr) => some (r, h3, q3, w :: tr)

/-- Model of `Condition_notify_waiters` (`_cthreading.c:878-897`).  The loop runs
at most `count` iterations (`count` is a C `int`; a non-positive count
runs zero iterations, hence `Int.toNat`). -/
def Condition_notify_waiters (st : CondState) (tid : Int) (count : Int) :
    Option (Except PyErr Unit × CondState × List Nat) :=
  if ¬ Condition_is_owned_internal st tid then
    some (.error .RuntimeError, st, [])
  else
    match notify_loop count.toNat st.heap st.waiters with
    | none => none
    | some (r, h, q, tr) => some (r, ⟨st.lock, h, q⟩, tr)

/-- Model of `Condition_notify` (`_cthreading.c:963-972`); the parsed `n` argument
defaults to 1. -/
def Condition_notify (st : CondState) (tid : Int) (count : Int) :
    Option (Except PyErr Unit × CondState × List Nat) :=
  Condition_notify_waiters st tid count

/-- Model of `Condition_notify_all` (`_cthreading.c:974-978`): notify with the
queue's current count. -/
def Condition_notify_all (st : CondState) (tid : Int) :
    Option (Except PyErr Unit × CondState × List Nat) :=
  Condition_notify_waiters st tid st.waiters.count

/-- Model of `Condition_wait_released` (`_cthreading.c:842-863`): save-and-release
the lock, block on the waiter's private semaphore, reacquire-restoring
the lock.  Result: `.ok true` for ACQUIRE_OK, `.ok false` for
ACQUIRE_FAIL (timeout), `.error` when any step raised. -/
def Condition_wait_released (lk : RLockState) (h : Heap) (w : Nat) (timeout : ℚ) :
    Option (Except PyErr Bool × RLockState × Heap) :=
  match RLock_release_save lk with
  | (.error e, lk1) => some (.error e, lk1, h)
  | (.ok saved, lk1) =>
    match acquire_lock (h w).sem timeout with
    | none => none
    | some (res, s) =>
      let h1 := updNode h w { h w with sem := s }
      match RLock_acquire_restore lk1 saved with
      | none => none
      | some (.error e, lk2) => some (.error e, lk2, h1)
      | some (.ok _, lk2) =>
        match res with
        | .ok => some (.ok true, lk2, h1)
        | .fail => some (.ok false, lk2, h1)
        | .error => some (.error .OSError, lk2, h1)

/-- Model of `Condition_wait` (`_cthreading.c:929-961`): parse the timeout, check
ownership, init and append the waiter (`w` is the fresh waiter's
identity — the address of the C stack variable), wait with the lock
released, and on a non-OK result remove the waiter from the queue.
(`waiter_destroy` only destroys the private semaphore of the
already-unlinked waiter; it does not change the queue.) -/
def Condition_wait (st : CondState) (tid : Int) (w : Nat) (obj : Option ℚ) :
    Option (Except PyErr Bool × CondState) :=
  match parse_timeout obj with
  | .error e => some (.error e, st)
  | .ok timeout =>
    if ¬ Condition_is_owned_internal st tid then
      some (.error .RuntimeError, st)
    else
      let h0 := waiter_init st.heap w
      match waitq_append h0 st.waiters w with
      | none => none
      | some (h1, q1) =>
        match Condition_wait_released st.lock h1 w timeout with
        | none => none
        | some (r, lk2, h2) =>
          match (match r with
                 | .ok true => some (h2, q1)
                 | _ => waitq_remove h2 q1 w) with
          | none => none
          | some (h3, q3) => some (r, ⟨lk2, h3, q3⟩)

/- ### The wait-queue representation invariant -/

/-- Embed a nullable waiter reference (`none` = `NULL`) as a `Ptr`. -/
def toPtr : Option Nat → Ptr
  | none => .null
  | some i => .node i

/-- Segment predicate `Dlseg h before first last after ws`: in heap `h`, the waiters `ws`
form a doubly-linked segment; `first` points at its first node (or equals
`after` when empty), the first node's `prev` is `before`, consecutive
nodes are linked both ways, `last` is its last node (or `before` when
empty), and the last node's `next` is `after`. -/
inductive Dlseg (h : Heap) : Option Nat → Option Nat → Option Nat → Option Nat → List Nat → Prop where
  | nil (p n : Option Nat) : Dlseg h p n p n []
  | cons {p nxt l n : Option Nat} {w : Nat} {ws : List Nat}
      (hprev : (h w).prev = toPtr p) (hnext : (h w).next = toPtr nxt)
      (rest : Dlseg h (some w) nxt l n ws) :
      Dlseg h p (some w) l n (w :: ws)

/-- The wait-queue invariant (spec §3 "Wait Queue"): `first`/`last`
delimit a well-formed doubly-linked segment listing exactly the linked
waiters `ws` in FIFO order, `count` equals their number, and every
non-member's links are the `WAITER_UNUSED` sentinel. -/
def waitqRep (h : Heap) (q : Waitq) (ws : List Nat) : Prop :=
  (∃ f l, q.first = toPtr f ∧ q.last = toPtr l ∧ Dlseg h none f l none ws) ∧
  q.count = (ws.length : Int) ∧ ws.Nodup ∧
  ∀ v, v ∉ ws → (h v).next = .unused ∧ (h v).prev = .unused

/- ### Iterated scenarios and concrete witness data -/

/-- Iterate `n` successive `RLock_acquire` calls with the default arguments
(`blocking=1`, `timeout=None`), each required to return `True`. -/
def rlock_acquire_iter (tid : Int) : Nat → RLockState → Option RLockState
  | 0, st => some st
  | n + 1, st =>
    match RLock_acquire st tid 1 none with
    | some (.ok true, st') => rlock_acquire_iter tid n st'
    | _ => none

/-- Iterate `n` successive successful `RLock_release` calls. -/
def rlock_release_iter (tid : Int) : Nat → RLockState → Option RLockState
  | 0, st => some st
  | n + 1, st =>
    match RLock_release st tid with
    | (.ok _, st') => rlock_release_iter tid n st'
    | _ => none

/-- A concrete heap with waiters 1 and 2 linked (in this order), used to
evaluate the queue theorems on explicit data. -/
def twoWaiterHeap : Heap := fun v =>
  if v = 1 then ⟨0, .node 2, .null⟩
  else if v = 2 then ⟨0, .null, .node 1⟩
  else ⟨0, .unused, .unused⟩

/-- The queue over `twoWaiterHeap`: first is waiter 1, last is waiter 2. -/
def twoWaiterQ : Waitq := ⟨.node 1, .node 2, 2⟩

/-- The heap with every waiter unlinked. -/
def emptyHeap : Heap := fun _ => ⟨0, .unused, .unused⟩

/- ### Helper lemmas -/

theorem updNode_self (h : Heap) (i : Nat) (n : Node) : updNode h i n i = n := by
  simp [updNode]

theorem updNode_ne (h : Heap) (i : Nat) (n : Node) {j : Nat} (hj : j ≠ i) :
    updNode h i n j = h j := by
  simp [updNode, hj]

theorem toPtr_ne_unused (o : Option Nat) : toPtr o ≠ .unused := by
  cases o <;> simp [toPtr]

theorem Dlseg.nil_inv {h : Heap} {p f l n : Option Nat}
    (d : Dlseg h p f l n []) : l = p ∧ f = n := by
  cases d; exact ⟨rfl, rfl⟩

theorem Dlseg.cons_inv {h : Heap} {p f l n : Option Nat} {w : Nat} {ws : List Nat}
    (d : Dlseg h p f l n (w :: ws)) :
    f = some w ∧ (h w).prev = toPtr p ∧
      ∃ nxt, (h w).next = toPtr nxt ∧ Dlseg h (some w) nxt l n ws := by
  cases d with
  | cons hprev hnext rest => exact ⟨rfl, hprev, _, hnext, rest⟩

/-- A segment only constrains the links of its members: heaps agreeing on
those links carry the same segment. -/
theorem Dlseg.congr {h h' : Heap} {p f l n : Option Nat} {ws : List Nat}
    (d : Dlseg h p f l n ws)
    (hag : ∀ v ∈ ws, (h' v).prev = (h v).prev ∧ (h' v).next = (h v).next) :
    Dlseg h' p f l n ws := by
  induction d with
  | nil p n => exact .nil p n
  | @cons p nxt l n w ws hprev hnext _ ih =>
    exact .cons ((hag w (List.mem_cons_self w ws)).1.trans hprev)
      ((hag w (List.mem_cons_self w ws)).2.trans hnext)
      (ih fun v hv => hag v (List.mem_cons_of_mem w hv))

/-- Every member of a segment has real (non-sentinel) links. -/
theorem Dlseg.mem_links {h : Heap} {p f l n : Option Nat} {ws : List Nat}
    (d : Dlseg h p f l n ws) {v : Nat} (hv : v ∈ ws) :
    (h v).prev ≠ .unused ∧ (h v).next ≠ .unused := by
  induction d with
  | nil => cases hv
  | @cons p nxt l n w ws hprev hnext _ ih =>
    rcases List.mem_cons.mp hv with rfl | hv'
    · exact ⟨hprev ▸ toPtr_ne_unused p, hnext ▸ toPtr_ne_unused nxt⟩
    · exact ih hv'

/-- An empty-last segment is the empty segment. -/
theorem Dlseg.last_eq_none {h : Heap} {p f l n : Option Nat} {ws : List Nat}
    (d : Dlseg h p f l n ws) (hl : l = none) : ws = [] ∧ p = none ∧ f = n := by
  induction d with
  | nil => exact ⟨rfl, hl, rfl⟩
  | cons _ _ _ ih => obtain ⟨_, hw, _⟩ := ih hl; exact absurd hw (by simp)

/-- The node a nonempty segment's `last` designates is a member. -/
theorem Dlseg.last_mem {h : Heap} {p f l n : Option Nat} {la : Nat} {ws : List Nat}
    (d : Dlseg h p f l n ws) (hl : l = some la) (hne : ws ≠ []) : la ∈ ws := by
  induction d with
  | nil => exact absurd rfl hne
  | @cons p nxt l n w ws hprev hnext rest ih =>
    cases ws with
    | nil =>
      obtain ⟨h1, _⟩ := rest.nil_inv
      have hw : w = la := by simpa using h1.symm.trans hl
      exact hw ▸ List.mem_singleton.mpr rfl
    | cons a as => exact List.mem_cons_of_mem w (ih hl (by simp))

/-- Two segments linked back to back concatenate. -/
theorem Dlseg.append {h : Heap} {p f q m l n : Option Nat} {a b : List Nat}
    (d1 : Dlseg h p f q m a) (d2 : Dlseg h q m l n b) :
    Dlseg h p f l n (a ++ b) := by
  revert d2
  induction d1 with
  | nil p n => exact fun d2 => d2
  | cons hprev hnext _ ih => exact fun d2 => .cons hprev hnext (ih d2)

/-- Splitting a segment at a member. -/
theorem Dlseg.split {h : Heap} {p f l n : Option Nat} {w : Nat} {a b : List Nat}
    (d : Dlseg h p f l n (a ++ w :: b)) :
    ∃ la nb, Dlseg h p f la (some w) a ∧ (h w).prev = toPtr la ∧
      (h w).next = toPtr nb ∧ Dlseg h (some w) nb l n b := by
  induction a generalizing p f with
  | nil =>
    obtain ⟨hf, hprev, nxt, hnext, rest⟩ := d.cons_inv
    subst hf
    exact ⟨p, nxt, .nil p (some w), hprev, hnext, rest⟩
  | cons x a' ih =>
    obtain ⟨hf, hprev, nxt, hnext, rest⟩ := d.cons_inv
    subst hf
    obtain ⟨la, nb, d1, hwp, hwn, d2⟩ := ih rest
    exact ⟨la, nb, .cons hprev hnext d1, hwp, hwn, d2⟩

/-- Re-point the `next` of the last node of a segment (the other nodes'
links unchanged): the segment now ends in the new target. -/
theorem Dlseg.retarget {h h3 : Heap} {p f n n' : Option Nat} {pa : Nat} {a : List Nat}
    (d : Dlseg h p f (some pa) n a) (hnd : a.Nodup)
    (hag : ∀ v ∈ a, v ≠ pa → (h3 v).prev = (h v).prev ∧ (h3 v).next = (h v).next)
    (hpa : (h3 pa).prev = (h pa).prev ∧ (h3 pa).next = toPtr n')
    (hp : p ≠ some pa) :
    Dlseg h3 p f (some pa) n' a := by
  induction a generalizing p f with
  | nil =>
    obtain ⟨hl, _⟩ := d.nil_inv
    exact absurd hl.symm hp
  | cons x a' ih =>
    obtain ⟨hf, hprev, nxt, hnext, rest⟩ := d.cons_inv
    subst hf
    cases a' with
    | nil =>
      obtain ⟨h1, h2⟩ := rest.nil_inv
      obtain rfl : x = pa := by simpa using h1.symm
      subst h2
      exact .cons (hpa.1.trans hprev) hpa.2 (.nil (some x) n')
    | cons y a'' =>
      have hmem : pa ∈ y :: a'' := rest.last_mem rfl (by simp)
      have hxpa : x ≠ pa := fun hx => (List.nodup_cons.mp hnd).1 (hx ▸ hmem)
      have hx3 := hag x (List.mem_cons_self _ _) hxpa
      exact .cons (hx3.1.trans hprev) (hx3.2.trans hnext)
        (ih rest (List.nodup_cons.mp hnd).2
          (fun v hv hvpa => hag v (List.mem_cons_of_mem _ hv) hvpa)
          (by simpa using hxpa))

/-- Re-point the `prev` of the first node of a segment (the other nodes'
links unchanged): the segment now hangs off the new predecessor. -/
theorem Dlseg.rebefore {h h3 : Heap} {p p' l n : Option Nat} {w : Nat} {b : List Nat}
    (d : Dlseg h p (some w) l n (w :: b))
    (hag : ∀ v ∈ b, (h3 v).prev = (h v).prev ∧ (h3 v).next = (h v).next)
    (hw3 : (h3 w).prev = toPtr p' ∧ (h3 w).next = (h w).next) :
    Dlseg h3 p' (some w) l n (w :: b) := by
  obtain ⟨_, _, nxt, hnext, rest⟩ := d.cons_inv
  exact .cons hw3.1 (hw3.2.trans hnext) (rest.congr hag)

/-- A waiter with sentinel links is not linked. -/
theorem waitqRep.not_mem_of_unused {h : Heap} {q : Waitq} {ws : List Nat} {w : Nat}
    (hrep : waitqRep h q ws) (hw : (h w).next = .unused) : w ∉ ws := by
  intro hmem
  obtain ⟨⟨f, l, _, _, chain⟩, _, _, _⟩ := hrep
  exact (chain.mem_links hmem).2 hw

/-- Specification of `waitq_append` on a well-formed queue, applied to an unlinked waiter
(the C code's `assert`): succeeds, and the queue now represents
`ws ++ [w]` — the waiter is appended at the tail.  No private semaphore
changes. -/
theorem waitq_append_spec {h : Heap} {q : Waitq} {ws : List Nat} {w : Nat}
    (hrep : waitqRep h q ws)
    (hnx : (h w).next = .unused) (hpv : (h w).prev = .unused) :
    ∃ h' q', waitq_append h q w = some (h', q') ∧ waitqRep h' q' (ws ++ [w]) ∧
      ∀ v, (h' v).sem = (h v).sem := by
  obtain ⟨⟨f, l, hf, hl, chain⟩, hcount, hnodup, hout⟩ := hrep
  have hwmem : w ∉ ws := fun hm => (chain.mem_links hm).2 hnx
  cases l with
  | none =>
    obtain ⟨rfl, -, rfl⟩ := chain.last_eq_none rfl
    have hl' : q.last = Ptr.null := hl
    refine ⟨updNode h w { h w with next := .null, prev := .null },
      ⟨.node w, .node w, q.count + 1⟩, ?_, ?_, ?_⟩
    · simp only [waitq_append, hl']
    · refine ⟨⟨some w, some w, rfl, rfl, ?_⟩, ?_, by simp, ?_⟩
      · exact .cons (by simp [updNode_self, toPtr]) (by simp [updNode_self, toPtr])
          (.nil (some w) none)
      · simp [hcount]
      · intro v hv
        have hvw : v ≠ w := by simpa using hv
        rw [updNode_ne _ _ _ hvw]
        exact hout v (by simp)
    · intro v
      by_cases hvw : v = w
      · subst hvw; simp [updNode_self]
      · rw [updNode_ne _ _ _ hvw]
  | some lw =>
    have hl' : q.last = Ptr.node lw := hl
    have hne : ws ≠ [] := by
      intro h0
      subst h0
      exact absurd chain.nil_inv.1 (by simp)
    have hlwmem : lw ∈ ws := chain.last_mem rfl hne
    have hlww : lw ≠ w := fun hx => hwmem (hx ▸ hlwmem)
    refine ⟨updNode (updNode h w { h w with next := .null, prev := .node lw }) lw
      { (updNode h w { h w with next := .null, prev := .node lw }) lw with next := .node w },
      ⟨q.first, .node w, q.count + 1⟩, ?_, ?_, ?_⟩
    · simp only [waitq_append, hl']
    · set h1 := updNode h w { h w with next := .null, prev := .node lw } with hh1
      set h2 := updNode h1 lw { h1 lw with next := .node w } with hh2
      have h1lw : h1 lw = h lw := updNode_ne _ _ _ hlww
      have hag : ∀ v ∈ ws, v ≠ lw → (h2 v).prev = (h v).prev ∧ (h2 v).next = (h v).next := by
        intro v hv hvlw
        have hvw : v ≠ w := fun hx => hwmem (hx ▸ hv)
        rw [hh2, updNode_ne _ _ _ hvlw, hh1, updNode_ne _ _ _ hvw]
        exact ⟨rfl, rfl⟩
      have h2lw : h2 lw = { h1 lw with next := .node w } := updNode_self _ _ _
      have h2w : h2 w = { h w with next := .null, prev := .node lw } := by
        rw [hh2, updNode_ne _ _ _ (Ne.symm hlww), hh1, updNode_self]
      have dA : Dlseg h2 none f (some lw) (some w) ws :=
        chain.retarget hnodup hag
          (by rw [h2lw, h1lw]; exact ⟨rfl, rfl⟩) (by simp)
      have dB : Dlseg h2 (some lw) (some w) (some w) none [w] := by
        refine .cons ?_ ?_ (.nil (some w) none)
        · rw [h2w]; rfl
        · rw [h2w]; rfl
      refine ⟨⟨f, some w, hf, rfl, dA.append dB⟩, ?_, ?_, ?_⟩
      · simp [hcount]
      · exact List.Nodup.append hnodup (List.nodup_singleton w)
          (fun a ha hb => hwmem (by rwa [List.mem_singleton.mp hb] at ha))
      · intro v hv
        rw [List.mem_append, List.mem_singleton] at hv
        push_neg at hv
        rw [hh2, updNode_ne _ _ _ (fun hx => hv.1 (by rw [hx]; exact hlwmem)),
          hh1, updNode_ne _ _ _ hv.2]
        exact hout v hv.1
    · intro v
      by_cases hvlw : v = lw
      · subst hvlw
        rw [updNode_self, updNode_ne _ _ _ hlww]
      · rw [updNode_ne _ _ _ hvlw]
        by_cases hvw : v = w
        · subst hvw; rw [updNode_self]
        · rw [updNode_ne _ _ _ hvw]

/-- Specification of `waitq_remove` on a waiter that is not linked (its links are the
sentinel, by the invariant) is a no-op: heap and queue are returned
unchanged. -/
theorem waitq_remove_noop {h : Heap} {q : Waitq} {ws : List Nat} {w : Nat}
    (hrep : waitqRep h q ws) (hw : w ∉ ws) :
    waitq_remove h q w = some (h, q) := by
  have hnx := (hrep.2.2.2 w hw).1
  simp [waitq_remove, hnx]


/-- Specification of `waitq_remove` on a linked waiter (sitting at an arbitrary position:
`ws = a ++ w :: b`) succeeds, the queue now represents `a ++ b` (all
other waiters keep their order), and the removed waiter's links are
reset to the sentinel.  No private semaphore changes. -/
theorem waitq_remove_spec {h : Heap} {q : Waitq} {w : Nat} {a b : List Nat}
    (hrep : waitqRep h q (a ++ w :: b)) :
    ∃ h' q', waitq_remove h q w = some (h', q') ∧ waitqRep h' q' (a ++ b) ∧
      (h' w).next = .unused ∧ (h' w).prev = .unused ∧
      ∀ v, (h' v).sem = (h v).sem := by
  obtain ⟨⟨f, l, hf, hl, chain⟩, hcount, hnodup, hout⟩ := hrep
  obtain ⟨la, nb, dA, hwp, hwn, dB⟩ := chain.split
  have hna : a.Nodup := (List.nodup_append.mp hnodup).1
  have hnwb : (w :: b).Nodup := (List.nodup_append.mp hnodup).2.1
  have hdisj : a.Disjoint (w :: b) := (List.nodup_append.mp hnodup).2.2
  have hwa : w ∉ a := fun hx => hdisj hx (List.mem_cons_self _ _)
  have hwb : w ∉ b := (List.nodup_cons.mp hnwb).1
  have hnb : b.Nodup := (List.nodup_cons.mp hnwb).2
  have hgw : ¬ (h w).next = Ptr.unused := by rw [hwn]; exact toPtr_ne_unused nb
  cases la with
  | none =>
    obtain ⟨rfl, -, rfl⟩ := dA.last_eq_none rfl
    have hwp' : (h w).prev = Ptr.null := hwp
    cases nb with
    | none =>
      cases b with
      | cons x b' => exact absurd dB.cons_inv.1 (by simp)
      | nil =>
        have hwn' : (h w).next = Ptr.null := hwn
        refine ⟨updNode h w ⟨(h w).sem, .unused, .unused⟩,
          ⟨Ptr.null, Ptr.null, q.count - 1⟩, ?_, ?_, ?_, ?_, ?_⟩
        · rw [waitq_remove, if_neg hgw]
          simp only [hwp', waitq_remove_finish, hwn']
        · refine ⟨⟨none, none, rfl, rfl, .nil none none⟩, ?_, by simp, ?_⟩
          · simp only [List.nil_append, List.length_cons, List.length_nil] at hcount
            simp only [List.nil_append, List.length_nil]
            omega
          · intro v hv
            by_cases hvw : v = w
            · subst hvw; simp [updNode_self]
            · rw [updNode_ne _ _ _ hvw]
              exact hout v (by simp [hvw])
        · simp [updNode_self]
        · simp [updNode_self]
        · intro v
          by_cases hvw : v = w
          · subst hvw; simp [updNode_self]
          · rw [updNode_ne _ _ _ hvw]
    | some nbw =>
      cases b with
      | nil => exact absurd dB.nil_inv.2 (by simp)
      | cons x b' =>
        have hxe : nbw = x := by simpa using dB.cons_inv.1
        subst hxe
        have hwn' : (h w).next = Ptr.node nbw := hwn
        have hwx : w ≠ nbw := fun hx => hwb (hx ▸ List.mem_cons_self _ _)
        have hxb' : nbw ∉ b' := (List.nodup_cons.mp hnb).1
        have h2w : updNode h nbw ⟨(h nbw).sem, (h nbw).next, Ptr.null⟩ w = h w :=
          updNode_ne _ _ _ hwx
        refine ⟨updNode (updNode h nbw ⟨(h nbw).sem, (h nbw).next, Ptr.null⟩) w
            ⟨(h w).sem, .unused, .unused⟩,
          ⟨Ptr.node nbw, q.last, q.count - 1⟩, ?_, ?_, ?_, ?_, ?_⟩
        · rw [waitq_remove, if_neg hgw]
          simp only [hwp', waitq_remove_finish, hwn', h2w]
        · set h2 := updNode h nbw ⟨(h nbw).sem, (h nbw).next, Ptr.null⟩ with hh2
          set h3 := updNode h2 w ⟨(h w).sem, .unused, .unused⟩ with hh3
          have h3x : h3 nbw = ⟨(h nbw).sem, (h nbw).next, Ptr.null⟩ := by
            rw [hh3, updNode_ne _ _ _ (Ne.symm hwx), hh2, updNode_self]
          have hag : ∀ v ∈ b', (h3 v).prev = (h v).prev ∧ (h3 v).next = (h v).next := by
            intro v hv
            have hvw : v ≠ w := fun hx => hwb (hx ▸ List.mem_cons_of_mem _ hv)
            have hvx : v ≠ nbw := fun hx => hxb' (hx ▸ hv)
            rw [hh3, updNode_ne _ _ _ hvw, hh2, updNode_ne _ _ _ hvx]
            exact ⟨rfl, rfl⟩
          have dB' : Dlseg h3 none (some nbw) l none (nbw :: b') :=
            dB.rebefore hag (by rw [h3x]; exact ⟨rfl, rfl⟩)
          refine ⟨⟨some nbw, l, rfl, hl, by simpa using dB'⟩, ?_, by simpa using hnb, ?_⟩
          · simp only [List.nil_append, List.length_cons] at hcount
            simp only [List.nil_append, List.length_cons]
            omega
          · intro v hv
            simp only [List.nil_append, List.mem_cons, not_or] at hv
            by_cases hvw : v = w
            · subst hvw; simp [hh3, updNode_self]
            · rw [hh3, updNode_ne _ _ _ hvw, hh2, updNode_ne _ _ _ hv.1]
              refine hout v ?_
              simp only [List.nil_append, List.mem_cons, not_or]
              exact ⟨hvw, hv.1, hv.2⟩
        · simp [updNode_self]
        · simp [updNode_self]
        · intro v
          by_cases hvw : v = w
          · subst hvw; simp [updNode_self]
          · rw [updNode_ne _ _ _ hvw]
            by_cases hvx : v = nbw
            · subst hvx; simp [updNode_self]
            · rw [updNode_ne _ _ _ hvx]
  | some pa =>
    have hane : a ≠ [] := by
      intro h0
      subst h0
      exact absurd dA.nil_inv.1 (by simp)
    have hpamem : pa ∈ a := dA.last_mem rfl hane
    have hwpa : w ≠ pa := fun hx => hwa (hx ▸ hpamem)
    have hwp' : (h w).prev = Ptr.node pa := hwp
    cases nb with
    | none =>
      cases b with
      | cons x b' => exact absurd dB.cons_inv.1 (by simp)
      | nil =>
        have hwn' : (h w).next = Ptr.null := hwn
        have h1w : updNode h pa ⟨(h pa).sem, Ptr.null, (h pa).prev⟩ w = h w :=
          updNode_ne _ _ _ hwpa
        refine ⟨updNode (updNode h pa ⟨(h pa).sem, Ptr.null, (h pa).prev⟩) w
            ⟨(h w).sem, .unused, .unused⟩,
          ⟨q.first, Ptr.node pa, q.count - 1⟩, ?_, ?_, ?_, ?_, ?_⟩
        · rw [waitq_remove, if_neg hgw]
          simp only [hwp', waitq_remove_finish, hwn', h1w]
        · set h1 := updNode h pa ⟨(h pa).sem, Ptr.null, (h pa).prev⟩ with hh1
          set h3 := updNode h1 w ⟨(h w).sem, .unused, .unused⟩ with hh3
          have h3pa : h3 pa = ⟨(h pa).sem, Ptr.null, (h pa).prev⟩ := by
            rw [hh3, updNode_ne _ _ _ (Ne.symm hwpa), hh1, updNode_self]
          have hag : ∀ v ∈ a, v ≠ pa →
              (h3 v).prev = (h v).prev ∧ (h3 v).next = (h v).next := by
            intro v hv hvpa
            have hvw : v ≠ w := fun hx => hwa (hx ▸ hv)
            rw [hh3, updNode_ne _ _ _ hvw, hh1, updNode_ne _ _ _ hvpa]
            exact ⟨rfl, rfl⟩
          have dA' : Dlseg h3 none f (some pa) none a :=
            dA.retarget hna hag (by rw [h3pa]; exact ⟨rfl, rfl⟩) (by simp)
          refine ⟨⟨f, some pa, hf, rfl, by simpa using dA'⟩, ?_, by simpa using hna, ?_⟩
          · simp only [List.length_append, List.length_cons, List.length_nil] at hcount
            simp only [List.append_nil]
            omega
          · intro v hv
            simp only [List.append_nil] at hv
            by_cases hvw : v = w
            · subst hvw; simp [hh3, updNode_self]
            · have hvpa : v ≠ pa := fun hx => hv (hx ▸ hpamem)
              rw [hh3, updNode_ne _ _ _ hvw, hh1, updNode_ne _ _ _ hvpa]
              refine hout v ?_
              simp only [List.mem_append, List.mem_cons, not_or]
              exact ⟨hv, hvw, by simp⟩
        · simp [updNode_self]
        · simp [updNode_self]
        · intro v
          by_cases hvw : v = w
          · subst hvw; simp [updNode_self]
          · rw [updNode_ne _ _ _ hvw]
            by_cases hvpa : v = pa
            · subst hvpa; simp [updNode_self]
            · rw [updNode_ne _ _ _ hvpa]
    | some nbw =>
      cases b with
      | nil => exact absurd dB.nil_inv.2 (by simp)
      | cons x b' =>
        have hxe : nbw = x := by simpa using dB.cons_inv.1
        subst hxe
        have hwn' : (h w).next = Ptr.node nbw := hwn
        have hwx : w ≠ nbw := fun hx => hwb (hx ▸ List.mem_cons_self _ _)
        have hxb' : nbw ∉ b' := (List.nodup_cons.mp hnb).1
        have hxpa : nbw ≠ pa := fun hx => hdisj (show nbw ∈ a by rw [hx]; exact hpamem)
          (List.mem_cons_of_mem _ (List.mem_cons_self _ _))
        have h1w : updNode h pa ⟨(h pa).sem, Ptr.node nbw, (h pa).prev⟩ w = h w :=
          updNode_ne _ _ _ hwpa
        have h1x : updNode h pa ⟨(h pa).sem, Ptr.node nbw, (h pa).prev⟩ nbw = h nbw :=
          updNode_ne _ _ _ hxpa
        have h2w : updNode (updNode h pa ⟨(h pa).sem, Ptr.node nbw, (h pa).prev⟩) nbw
            ⟨(h nbw).sem, (h nbw).next, Ptr.node pa⟩ w = h w := by
          rw [updNode_ne _ _ _ hwx, h1w]
        refine ⟨updNode (updNode (updNode h pa ⟨(h pa).sem, Ptr.node nbw, (h pa).prev⟩)
              nbw ⟨(h nbw).sem, (h nbw).next, Ptr.node pa⟩) w
            ⟨(h w).sem, .unused, .unused⟩,
          ⟨q.first, q.last, q.count - 1⟩, ?_, ?_, ?_, ?_, ?_⟩
        · rw [waitq_remove, if_neg hgw]
          simp only [hwp', waitq_remove_finish, hwn', h1w, h1x, h2w]
        · set h1 := updNode h pa ⟨(h pa).sem, Ptr.node nbw, (h pa).prev⟩ with hh1
          set h2 := updNode h1 nbw ⟨(h nbw).sem, (h nbw).next, Ptr.node pa⟩ with hh2
          set h3 := updNode h2 w ⟨(h w).sem, .unused, .unused⟩ with hh3
          have h3pa : h3 pa = ⟨(h pa).sem, Ptr.node nbw, (h pa).prev⟩ := by
            rw [hh3, updNode_ne _ _ _ (Ne.symm hwpa), hh2,
              updNode_ne _ _ _ (Ne.symm hxpa), hh1, updNode_self]
          have h3x : h3 nbw = ⟨(h nbw).sem, (h nbw).next, Ptr.node pa⟩ := by
            rw [hh3, updNode_ne _ _ _ (Ne.symm hwx), hh2, updNode_self]
          have hagA : ∀ v ∈ a, v ≠ pa →
              (h3 v).prev = (h v).prev ∧ (h3 v).next = (h v).next := by
            intro v hv hvpa
            have hvw : v ≠ w := fun hx => hwa (hx ▸ hv)
            have hvx : v ≠ nbw := fun hx => hdisj (hx ▸ hv)
              (List.mem_cons_of_mem _ (List.mem_cons_self _ _))
            rw [hh3, updNode_ne _ _ _ hvw, hh2, updNode_ne _ _ _ hvx,
              hh1, updNode_ne _ _ _ hvpa]
            exact ⟨rfl, rfl⟩
          have hagB : ∀ v ∈ b', (h3 v).prev = (h v).prev ∧ (h3 v).next = (h v).next := by
            intro v hv
            have hvw : v ≠ w := fun hx => hwb (hx ▸ List.mem_cons_of_mem _ hv)
            have hvx : v ≠ nbw := fun hx => hxb' (hx ▸ hv)
            have hvpa : v ≠ pa := fun hx =>
              hdisj (hx ▸ hpamem) (List.mem_cons_of_mem _ (List.mem_cons_of_mem _ hv))
            rw [hh3, updNode_ne _ _ _ hvw, hh2, updNode_ne _ _ _ hvx,
              hh1, updNode_ne _ _ _ hvpa]
            exact ⟨rfl, rfl⟩
          have dA' : Dlseg h3 none f (some pa) (some nbw) a :=
            dA.retarget hna hagA (by rw [h3pa]; exact ⟨rfl, rfl⟩) (by simp)
          have dB' : Dlseg h3 (some pa) (some nbw) l none (nbw :: b') :=
            dB.rebefore hagB (by rw [h3x]; exact ⟨rfl, rfl⟩)
          refine ⟨⟨f, l, hf, hl, dA'.append dB'⟩, ?_, ?_, ?_⟩
          · simp only [List.length_append, List.length_cons] at hcount
            simp only [List.length_append, List.length_cons]
            omega
          · exact ((List.sublist_cons_self w (nbw :: b')).append_left a).nodup hnodup
          · intro v hv
            simp only [List.mem_append, List.mem_cons, not_or] at hv
            by_cases hvw : v = w
            · subst hvw; simp [hh3, updNode_self]
            · have hvpa : v ≠ pa := fun hx => hv.1 (hx ▸ hpamem)
              rw [hh3, updNode_ne _ _ _ hvw, hh2, updNode_ne _ _ _ hv.2.1,
                hh1, updNode_ne _ _ _ hvpa]
              refine hout v ?_
              simp only [List.mem_append, List.mem_cons, not_or]
              exact ⟨hv.1, hvw, hv.2.1, hv.2.2⟩
        · simp [updNode_self]
        · simp [updNode_self]
        · intro v
          by_cases hvw : v = w
          · subst hvw; simp [updNode_self]
          · rw [updNode_ne _ _ _ hvw]
            by_cases hvx : v = nbw
            · subst hvx; simp [updNode_self]
            · rw [updNode_ne _ _ _ hvx]
              by_cases hvpa : v = pa
              · subst hvpa; simp [updNode_self]
              · rw [updNode_ne _ _ _ hvpa]

/-- The notify loop on a well-formed queue whose waiters' private
semaphores are not saturated: it signals and unlinks exactly the first
`n` waiters (or all of them when fewer are queued), in FIFO order, and
leaves the rest queued in their original order. -/
theorem notify_loop_spec {h : Heap} {q : Waitq} {ws : List Nat} (n : Nat)
    (hrep : waitqRep h q ws)
    (hsem : ∀ v ∈ ws, (h v).sem < SEM_VALUE_MAX) :
    ∃ h' q', notify_loop n h q = some (.ok (), h', q', ws.take n) ∧
      waitqRep h' q' (ws.drop n) ∧
      (∀ v ∈ ws.take n, (h' v).sem = (h v).sem + 1) ∧
      (∀ v, v ∉ ws.take n → (h' v).sem = (h v).sem) := by
  induction n generalizing h q ws with
  | zero => exact ⟨h, q, rfl, by simpa using hrep, by simp, fun v _ => rfl⟩
  | succ n' ih =>
    cases ws with
    | nil =>
      obtain ⟨⟨f, l, hf, hl, chain⟩, hcount, hnodup, hout⟩ := hrep
      obtain ⟨rfl, rfl⟩ := chain.nil_inv
      have hfq : q.first = Ptr.null := hf
      refine ⟨h, q, ?_, ?_, by simp, fun v _ => rfl⟩
      · simp only [notify_loop, hfq, List.take_nil]
      · simp only [List.drop_nil]
        exact ⟨⟨none, none, hf, hl, chain⟩, hcount, hnodup, hout⟩
    | cons w rest =>
      have hchain := hrep.1
      obtain ⟨f, l, hf, hl, chain⟩ := hchain
      have hfw : f = some w := chain.cons_inv.1
      have hfq : q.first = Ptr.node w := by rw [hf, hfw]; rfl
      have hwrest : w ∉ rest := (List.nodup_cons.mp hrep.2.2.1).1
      have hrl : release_lock (h w).sem = some ((h w).sem + 1) := by
        simp [release_lock, hsem w (List.mem_cons_self _ _)]
      set h1 := updNode h w ⟨(h w).sem + 1, (h w).next, (h w).prev⟩ with hh1
      have h1sem : ∀ v, v ≠ w → h1 v = h v := fun v hv => updNode_ne _ _ _ hv
      have h1w : h1 w = ⟨(h w).sem + 1, (h w).next, (h w).prev⟩ := updNode_self _ _ _
      have hrep1 : waitqRep h1 q ([] ++ w :: rest) := by
        refine ⟨⟨f, l, hf, hl, chain.congr ?_⟩, by simpa using hrep.2.1,
          by simpa using hrep.2.2.1, ?_⟩
        · intro v hv
          by_cases hvw : v = w
          · subst hvw; rw [h1w]; exact ⟨rfl, rfl⟩
          · rw [h1sem v hvw]; exact ⟨rfl, rfl⟩
        · intro v hv
          simp only [List.nil_append, List.mem_cons, not_or] at hv
          rw [h1sem v hv.1]
          exact hrep.2.2.2 v (by simp [hv.1, hv.2])
      obtain ⟨h2, q2, hrem, hrep2, hw2nx, hw2pv, hsem2⟩ := waitq_remove_spec hrep1
      simp only [List.nil_append] at hrep2
      have hsemr : ∀ v ∈ rest, (h2 v).sem < SEM_VALUE_MAX := by
        intro v hv
        rw [hsem2 v, h1sem v (fun hx => hwrest (hx ▸ hv))]
        exact hsem v (List.mem_cons_of_mem _ hv)
      obtain ⟨h3, q3, hloop, hrep3, hinc, hpres⟩ := ih hrep2 hsemr
      refine ⟨h3, q3, ?_, by simpa using hrep3, ?_, ?_⟩
      · simp only [notify_loop, hfq, hrl, ← hh1, hrem, hloop, List.take_succ_cons]
      · intro v hv
        simp only [List.take_succ_cons, List.mem_cons] at hv
        rcases hv with rfl | hv'
        · rw [hpres v (fun hx => hwrest (List.take_subset _ _ hx)), hsem2 v, h1w]
        · have hvw : v ≠ w := fun hx => hwrest (hx ▸ List.take_subset _ _ hv')
          rw [hinc v hv', hsem2 v, h1sem v hvw]
      · intro v hv
        simp only [List.take_succ_cons, List.mem_cons, not_or] at hv
        rw [hpres v hv.2, hsem2 v, h1sem v hv.1]

/-- The pair `twoWaiterHeap`/`twoWaiterQ` satisfies the queue invariant with wait
list `[1, 2]`. -/
theorem twoWaiter_rep : waitqRep twoWaiterHeap twoWaiterQ [1, 2] := by
  refine ⟨⟨some 1, some 2, rfl, rfl, ?_⟩, by decide, by decide, ?_⟩
  · exact @Dlseg.cons twoWaiterHeap none (some 2) (some 2) none 1 [2] rfl rfl
      (@Dlseg.cons twoWaiterHeap (some 1) none (some 2) none 2 [] rfl rfl
        (.nil (some 2) none))
  · intro v hv
    simp only [List.mem_cons, not_or] at hv
    simp [twoWaiterHeap, hv.1, hv.2.1]

/-- Claim C3: the wait-queue invariant (`count` = number of linked
waiters, unlinked waiters carry the `WAITER_UNUSED` sentinel in both
links, the linked waiters form a well-formed doubly-linked list from
`first` to `last`) is preserved by `waitq_append` of an unlinked waiter
and by `waitq_remove` of a waiter at any position; removing an
already-detached waiter (sentinel links) is a no-op changing neither
heap nor queue; after a successful removal the waiter's links are reset
to the sentinel. -/
theorem claim_C3_waitq_invariant {h : Heap} {q : Waitq} {ws : List Nat} (w : Nat)
    (hrep : waitqRep h q ws) :
    ((h w).next = .unused → (h w).prev = .unused →
      ∃ h' q', waitq_append h q w = some (h', q') ∧ waitqRep h' q' (ws ++ [w])) ∧
    (∀ a b, ws = a ++ w :: b →
      ∃ h' q', waitq_remove h q w = some (h', q') ∧ waitqRep h' q' (a ++ b) ∧
        (h' w).next = .unused ∧ (h' w).prev = .unused) ∧
    (w ∉ ws → waitq_remove h q w = some (h, q)) := by
  refine ⟨fun hnx hpv => ?_, fun a b hab => ?_, fun hmem => waitq_remove_noop hrep hmem⟩
  · obtain ⟨h', q', e, r, -⟩ := waitq_append_spec hrep hnx hpv
    exact ⟨h', q', e, r⟩
  · subst hab
    obtain ⟨h', q', e, r, hn, hp, -⟩ := waitq_remove_spec hrep
    exact ⟨h', q', e, r, hn, hp⟩

theorem claim_C3_witness :
    waitqRep twoWaiterHeap twoWaiterQ [1, 2] ∧
    (∃ h' q', waitq_remove twoWaiterHeap twoWaiterQ 1 = some (h', q') ∧
      waitqRep h' q' [2] ∧ (h' 1).next = .unused ∧ (h' 1).prev = .unused) ∧
    (waitq_remove twoWaiterHeap twoWaiterQ 5 = some (twoWaiterHeap, twoWaiterQ)) :=
  ⟨twoWaiter_rep,
   (claim_C3_waitq_invariant 1 twoWaiter_rep).2.1 [] [2] rfl,
   (claim_C3_waitq_invariant 5 twoWaiter_rep).2.2 (by decide)⟩

/-- Claim C1: on a Condition whose underlying lock is owned by the
calling thread, with waiters `ws` queued in FIFO order (queue invariant)
and none of their private semaphores saturated, `notify(n)` signals the
private semaphore of, and unlinks, exactly the first `min(n, m)` waiters
(`m` the queue length), in that order (the trace lists the signalled
waiters in signalling order); the remaining waiters stay linked in their
original order; and `notify_all()` is exactly `notify` at the queue's
current count. -/
theorem claim_C1_notify_fifo {st : CondState} (tid : Int) (n : Int) {ws : List Nat}
    (hown : Condition_is_owned_internal st tid = true)
    (hrep : waitqRep st.heap st.waiters ws)
    (hsem : ∀ v ∈ ws, (st.heap v).sem < SEM_VALUE_MAX) :
    (∃ st', Condition_notify st tid n = some (.ok (), st', ws.take n.toNat) ∧
      st'.lock = st.lock ∧
      waitqRep st'.heap st'.waiters (ws.drop n.toNat) ∧
      (ws.take n.toNat).length = min n.toNat ws.length ∧
      (∀ v ∈ ws.take n.toNat, (st'.heap v).sem = (st.heap v).sem + 1) ∧
      (∀ v, v ∉ ws.take n.toNat → (st'.heap v).sem = (st.heap v).sem)) ∧
    Condition_notify_all st tid = Condition_notify st tid st.waiters.count := by
  obtain ⟨h', q', hloop, hrep', hinc, hpres⟩ := notify_loop_spec n.toNat hrep hsem
  refine ⟨⟨⟨st.lock, h', q'⟩, ?_, rfl, hrep', by simp, hinc, hpres⟩, rfl⟩
  simp only [Condition_notify, Condition_notify_waiters, hown, Bool.true_eq_false,
    not_true_eq_false, if_false, hloop]

theorem claim_C1_witness :
    (∃ st', Condition_notify ⟨⟨0, 7, 1⟩, twoWaiterHeap, twoWaiterQ⟩ 7 1 =
        some (.ok (), st', [1]) ∧
      st'.lock = ⟨0, 7, 1⟩ ∧
      waitqRep st'.heap st'.waiters [2] ∧
      ([1] : List Nat).length = min 1 2 ∧
      (∀ v ∈ ([1] : List Nat), (st'.heap v).sem = (twoWaiterHeap v).sem + 1) ∧
      (∀ v, v ∉ ([1] : List Nat) → (st'.heap v).sem = (twoWaiterHeap v).sem)) ∧
    Condition_notify_all ⟨⟨0, 7, 1⟩, twoWaiterHeap, twoWaiterQ⟩ 7 =
      Condition_notify ⟨⟨0, 7, 1⟩, twoWaiterHeap, twoWaiterQ⟩ 7 2 :=
  @claim_C1_notify_fifo ⟨⟨0, 7, 1⟩, twoWaiterHeap, twoWaiterQ⟩ 7 1 [1, 2] rfl
    twoWaiter_rep (by simp [twoWaiterHeap, SEM_VALUE_MAX])

/-- Claim C2: on a Condition whose underlying lock is not owned by the
calling thread, `wait` (with a well-formed timeout argument), `notify`
and `notify_all` all fail with the ownership error (`RuntimeError:
"cannot ... un-acquired condition"`), returning the Condition state —
lock, waiter heap and wait queue — entirely unchanged: no waiter is
appended, signalled or removed. -/
theorem claim_C2_unowned_errors {st : CondState} {tid : Int} (w : Nat) (n : Int)
    {obj : Option ℚ} {t : ℚ}
    (hparse : parse_timeout obj = .ok t)
    (hown : Condition_is_owned_internal st tid = false) :
    Condition_wait st tid w obj = some (.error .RuntimeError, st) ∧
    Condition_notify st tid n = some (.error .RuntimeError, st, []) ∧
    Condition_notify_all st tid = some (.error .RuntimeError, st, []) := by
  refine ⟨?_, ?_, ?_⟩
  · simp [Condition_wait, hparse, hown]
  · simp [Condition_notify, Condition_notify_waiters, hown]
  · simp [Condition_notify_all, Condition_notify_waiters, hown]

theorem claim_C2_witness :
    Condition_wait ⟨⟨1, 0, 0⟩, emptyHeap, waitq_init⟩ 7 0 none =
      some (.error .RuntimeError, ⟨⟨1, 0, 0⟩, emptyHeap, waitq_init⟩) ∧
    Condition_notify ⟨⟨1, 0, 0⟩, emptyHeap, waitq_init⟩ 7 1 =
      some (.error .RuntimeError, ⟨⟨1, 0, 0⟩, emptyHeap, waitq_init⟩, []) ∧
    Condition_notify_all ⟨⟨1, 0, 0⟩, emptyHeap, waitq_init⟩ 7 =
      some (.error .RuntimeError, ⟨⟨1, 0, 0⟩, emptyHeap, waitq_init⟩, []) :=
  @claim_C2_unowned_errors ⟨⟨1, 0, 0⟩, emptyHeap, waitq_init⟩ 7 0 1 none UNLIMITED
    rfl rfl

/-- Claim C4: for a Lock owned by the calling thread and an RLock owned
by the calling thread (`count > 0`), `_release_save` followed by
`_acquire_restore` of the returned saved state, with the lock
uncontended in between (this sequential model), restores the lock to
exactly its pre-release state — the whole `LockState` (resp.
`RLockState`, owner and count together, so no partial restore is
observable) equals the original, and `_is_owned` is true again.  The
saved state is the owner for Lock and the `(count, owner)` pair for
RLock. -/
theorem claim_C4_release_save_restore {lk : LockState} {rlk : RLockState} {tid : Int}
    (hlo : lk.owner = tid) (hlt : tid ≠ 0) (hls : lk.sem < SEM_VALUE_MAX)
    (hro : rlk.owner = tid) (hrc : 0 < rlk.count) (hrs : rlk.sem < SEM_VALUE_MAX) :
    (∃ st1, Lock_release_save lk = (.ok tid, st1) ∧
      Lock_acquire_restore st1 tid = some (.ok (), lk) ∧
      Lock_is_owned lk tid = true) ∧
    (∃ st2, RLock_release_save rlk = (.ok (rlk.count, rlk.owner), st2) ∧
      RLock_acquire_restore st2 (rlk.count, rlk.owner) = some (.ok (), rlk) ∧
      RLock_is_owned rlk tid = true) := by
  obtain ⟨sem, owner⟩ := lk
  obtain ⟨rsem, rowner, rcount⟩ := rlk
  simp only at hlo hls hro hrc hrs
  subst hlo
  subst hro
  constructor
  · refine ⟨⟨sem + 1, 0⟩, ?_, ?_, ?_⟩
    · simp [Lock_release_save, hlt, release_lock, hls]
    · simp [Lock_acquire_restore, acquire_lock]
    · simp [Lock_is_owned]
  · refine ⟨⟨rsem + 1, 0, 0⟩, ?_, ?_, ?_⟩
    · simp [RLock_release_save, release_lock, hrs, Nat.pos_iff_ne_zero.mp hrc]
    · simp [RLock_acquire_restore, acquire_lock]
    · simp [RLock_is_owned, hrc]

theorem claim_C4_witness :
    (∃ st1, Lock_release_save ⟨0, 7⟩ = (.ok 7, st1) ∧
      Lock_acquire_restore st1 7 = some (.ok (), ⟨0, 7⟩) ∧
      Lock_is_owned ⟨0, 7⟩ 7 = true) ∧
    (∃ st2, RLock_release_save ⟨0, 7, 3⟩ = (.ok (3, 7), st2) ∧
      RLock_acquire_restore st2 (3, 7) = some (.ok (), ⟨0, 7, 3⟩) ∧
      RLock_is_owned ⟨0, 7, 3⟩ 7 = true) :=
  @claim_C4_release_save_restore ⟨0, 7⟩ ⟨0, 7, 3⟩ 7 rfl (by decide) (by decide)
    rfl (by decide) (by decide)

/-- Claim C5: when the calling thread already owns an RLock
(`count > 0`, `owner = tid`) and the arguments parse, `acquire` takes
the reentrant fast path: it returns `True` immediately, increments only
`count`, and never touches the semaphore (the `sem` and `owner` fields
are unchanged and `acquire_lock` is not invoked); if the `unsigned long`
increment would wrap (`count` at its maximum), it instead fails with
`OverflowError` and leaves the whole state exactly as it was. -/
theorem claim_C5_reentrant_acquire {st : RLockState} {tid blocking : Int}
    {obj : Option ℚ} {t : ℚ}
    (hargs : acquire_parse_args blocking obj = .ok t)
    (hc : 0 < st.count) (ho : st.owner = tid) (hcb : st.count < ULONG_CARD) :
    (st.count + 1 < ULONG_CARD →
      RLock_acquire st tid blocking obj = some (.ok true, ⟨st.sem, st.owner, st.count + 1⟩)) ∧
    (st.count = ULONG_CARD - 1 →
      RLock_acquire st tid blocking obj = some (.error .OverflowError, st)) := by
  constructor
  · intro hlt
    have hmod : (st.count + 1) % ULONG_CARD = st.count + 1 := Nat.mod_eq_of_lt hlt
    simp [RLock_acquire, hargs, hc, ho, hmod]
  · intro heq
    have hmod : (st.count + 1) % ULONG_CARD = 0 := by
      rw [heq]
      simp [ULONG_CARD]
    simp [RLock_acquire, hargs, hc, ho, hmod]

theorem claim_C5_witness :
    RLock_acquire ⟨0, 7, 3⟩ 7 1 none = some (.ok true, ⟨0, 7, 4⟩) ∧
    RLock_acquire ⟨0, 7, 18446744073709551615⟩ 7 1 none =
      some (.error .OverflowError, ⟨0, 7, 18446744073709551615⟩) := by
  have hargs : acquire_parse_args 1 none = .ok UNLIMITED := by
    simp [acquire_parse_args, parse_timeout]
  exact ⟨(@claim_C5_reentrant_acquire ⟨0, 7, 3⟩ 7 1 none UNLIMITED hargs (by decide)
      rfl (by decide)).1 (by decide),
    (@claim_C5_reentrant_acquire ⟨0, 7, 18446744073709551615⟩ 7 1 none UNLIMITED hargs
      (by decide) rfl (by decide)).2 (by decide)⟩

/-- The default `acquire()` argument parse: blocking, no timeout. -/
theorem acquire_parse_args_default : acquire_parse_args 1 none = .ok UNLIMITED := by
  simp [acquire_parse_args, parse_timeout]

/-- Reentrant acquires from an owned RLock only grow the count. -/
theorem rlock_acquire_iter_owned (tid : Int) (n : Nat) :
    ∀ k : Nat, 0 < k → k + n < ULONG_CARD →
      rlock_acquire_iter tid n ⟨0, tid, k⟩ = some ⟨0, tid, k + n⟩ := by
  induction n with
  | zero => intro k hk hkn; simp [rlock_acquire_iter]
  | succ n' ih =>
    intro k hk hkn
    have hmod : (k + 1) % ULONG_CARD = k + 1 := Nat.mod_eq_of_lt (by omega)
    have hstep : RLock_acquire ⟨0, tid, k⟩ tid 1 none = some (.ok true, ⟨0, tid, k + 1⟩) := by
      simp [RLock_acquire, acquire_parse_args_default, hk, hmod]
    have harith : k + 1 + n' = k + (n' + 1) := by omega
    simp only [rlock_acquire_iter, hstep]
    rw [ih (k + 1) (by omega) (by omega), harith]

/-- Releases of an RLock held recursively more times than released only
shrink the count. -/
theorem rlock_release_iter_dec (tid : Int) (n : Nat) :
    ∀ c : Nat, n < c → rlock_release_iter tid n ⟨0, tid, c⟩ = some ⟨0, tid, c - n⟩ := by
  induction n with
  | zero => intro c hc; simp [rlock_release_iter]
  | succ n' ih =>
    intro c hc
    have hstep : RLock_release ⟨0, tid, c⟩ tid = (.ok (), ⟨0, tid, c - 1⟩) := by
      simp [RLock_release, (show ¬ c = 0 by omega), (show 1 < c by omega)]
    have harith : c - 1 - n' = c - (n' + 1) := by omega
    simp only [rlock_release_iter, hstep]
    rw [ih (c - 1) (by omega), harith]

/-- Claim C6 counterexample: the claim asserts that after the final
release `locked()` reports false on the RLock, but the `RLock_methods`
table exposes no `locked` method at all (unlike `Lock_methods`), so
calling `locked()` on an RLock raises `AttributeError` rather than
reporting anything. -/
theorem claim_C6_counterexample :
    "locked" ∉ RLock_method_names ∧ "locked" ∈ Lock_method_names := by
  decide

/-- Claim C6 (amended): RLock `release` fails with an ownership error —
changing nothing — unless the calling thread is the current owner with
`count > 0`; with `count > 1` it only decrements the count; with
`count = 1` it signals the semaphore and resets owner and count to the
unowned state.  A thread that acquires a fresh RLock `N` times and
releases `N-1` times still owns it (`_is_owned` true); the `N`-th
release leaves `_is_owned` false and the lock unowned (`owner = 0`,
`count = 0`; RLock exposes no `locked()` method — see the
counterexample). -/
theorem claim_C6_rlock_release {st : RLockState} {tid : Int} (N : Nat)
    (hN : 1 ≤ N) (hNc : N < ULONG_CARD) (hsem : st.sem < SEM_VALUE_MAX) :
    ((st.count = 0 ∨ st.owner ≠ tid) → RLock_release st tid = (.error .RuntimeError, st)) ∧
    (st.owner = tid → 1 < st.count →
      RLock_release st tid = (.ok (), ⟨st.sem, tid, st.count - 1⟩)) ∧
    (st.owner = tid → st.count = 1 →
      RLock_release st tid = (.ok (), ⟨st.sem + 1, 0, 0⟩) ∧
      RLock_is_owned ⟨st.sem + 1, 0, 0⟩ tid = false) ∧
    (∃ stN, rlock_acquire_iter tid N RLock_new = some stN ∧
      ∃ stOne, rlock_release_iter tid (N - 1) stN = some stOne ∧
        RLock_is_owned stOne tid = true ∧
        RLock_release stOne tid = (.ok (), ⟨1, 0, 0⟩) ∧
        RLock_is_owned ⟨1, 0, 0⟩ tid = false ∧
        (⟨1, 0, 0⟩ : RLockState).count = 0 ∧ (⟨1, 0, 0⟩ : RLockState).owner = 0) := by
  refine ⟨?_, ?_, ?_, ?_⟩
  · intro herr
    rcases herr with h0 | ho
    · simp [RLock_release, h0]
    · simp [RLock_release, ho]
  · intro ho hgt
    simp [RLock_release, ho, (show ¬ st.count = 0 by omega), hgt]
  · intro ho h1
    constructor
    · simp [RLock_release, ho, h1, release_lock, hsem]
    · simp [RLock_is_owned]
  · have hfirst : RLock_acquire RLock_new tid 1 none = some (.ok true, ⟨0, tid, 1⟩) := by
      simp [RLock_acquire, RLock_new, acquire_parse_args_default, acquire_lock, UNLIMITED]
    have hacq : rlock_acquire_iter tid N RLock_new = some ⟨0, tid, N⟩ := by
      obtain ⟨N', rfl⟩ : ∃ N', N = N' + 1 := ⟨N - 1, by omega⟩
      simp only [rlock_acquire_iter, hfirst]
      rw [rlock_acquire_iter_owned tid N' 1 (by omega) (by omega)]
      congr 1
      simp
      omega
    refine ⟨⟨0, tid, N⟩, hacq, ⟨0, tid, 1⟩, ?_, ?_, ?_, ?_, rfl, rfl⟩
    · rw [rlock_release_iter_dec tid (N - 1) N (by omega)]
      congr 2
      omega
    · simp [RLock_is_owned]
    · simp [RLock_release, release_lock, SEM_VALUE_MAX]
    · simp [RLock_is_owned]

theorem claim_C6_witness :
    (RLock_release ⟨0, 7, 5⟩ 1 = (.error .RuntimeError, ⟨0, 7, 5⟩)) ∧
    (RLock_release ⟨0, 7, 5⟩ 7 = (.ok (), ⟨0, 7, 4⟩)) ∧
    (∃ stN, rlock_acquire_iter 7 2 RLock_new = some stN ∧
      ∃ stOne, rlock_release_iter 7 1 stN = some stOne ∧
        RLock_is_owned stOne 7 = true ∧
        RLock_release stOne 7 = (.ok (), ⟨1, 0, 0⟩) ∧
        RLock_is_owned ⟨1, 0, 0⟩ 7 = false ∧
        (⟨1, 0, 0⟩ : RLockState).count = 0 ∧ (⟨1, 0, 0⟩ : RLockState).owner = 0) := by
  have h1 := @claim_C6_rlock_release ⟨0, 7, 5⟩ 1 2 (by decide) (by decide) (by decide)
  have h2 := @claim_C6_rlock_release ⟨0, 7, 5⟩ 7 2 (by decide) (by decide) (by decide)
  exact ⟨h1.1 (Or.inr (by decide)), h2.2.1 rfl (by decide), h2.2.2.2⟩

/-- Claim C7: `Lock_release` raises the ownership error (`ThreadError`)
iff no thread owns the lock.  The model function takes no thread
identity at all — faithful to the C code, which never consults the
calling thread — so the check is trivially independent of the caller,
and a non-owner's release succeeds whenever some thread owns the lock.
On the error path the state is unchanged; on the success path the
semaphore is signalled and only then is the owner cleared, so a failed
`sem_post` leaves the owner field still set. -/
theorem claim_C7_lock_release (st : LockState) (tid : Int) :
    ((Lock_release st).1 = .error .ThreadError ↔ st.owner = 0) ∧
    (st.owner = 0 → Lock_release st = (.error .ThreadError, st)) ∧
    (st.owner ≠ 0 → st.sem < SEM_VALUE_MAX →
      Lock_release st = (.ok (), ⟨st.sem + 1, 0⟩)) ∧
    (st.owner ≠ 0 → ¬ st.sem < SEM_VALUE_MAX →
      Lock_release st = (.error .OSError, st) ∧
      (Lock_release st).2.owner = st.owner ∧ st.owner ≠ 0) := by
  refine ⟨?_, fun h0 => by simp [Lock_release, h0], ?_, ?_⟩
  · constructor
    · intro he
      by_contra h0
      rcases hrl : release_lock st.sem with - | s <;>
        simp [Lock_release, h0, hrl] at he
    · intro h0
      simp [Lock_release, h0]
  · intro h0 hs
    simp [Lock_release, h0, release_lock, hs]
  · intro h0 hs
    refine ⟨?_, ?_, h0⟩ <;> simp [Lock_release, h0, release_lock, hs]

theorem claim_C7_witness :
    (Lock_release ⟨0, 9⟩ = (.ok (), ⟨1, 0⟩)) ∧
    (Lock_release ⟨1, 0⟩ = (.error .ThreadError, ⟨1, 0⟩)) ∧
    (Lock_release ⟨2147483647, 9⟩ = (.error .OSError, ⟨2147483647, 9⟩)) :=
  ⟨(claim_C7_lock_release ⟨0, 9⟩ 5).2.2.1 (by decide) (by decide),
   (claim_C7_lock_release ⟨1, 0⟩ 5).2.1 rfl,
   ((claim_C7_lock_release ⟨2147483647, 9⟩ 5).2.2.2 (by decide) (by decide)).1⟩

/-- Claim C8: for every positive timeout and any current time whose
seconds do not already exceed `INT_MAX` (any real `gettimeofday`
result), the computed deadline's seconds never pass `INT_MAX`: adding
the timeout's whole seconds, or the sub-second carry, saturates at
exactly `INT_MAX` whenever the exact sum would exceed it — including
for extremely large timeouts such as `1e100` (the timeout is an exact
rational here; see `ctrunc`). -/
theorem claim_C8_deadline_saturation (timeout : ℚ) (now : Timeval)
    (ht : 0 < timeout) (hnow : now.sec ≤ INT_MAX) :
    (deadline_from_timeout timeout now).sec ≤ INT_MAX ∧
    (INT_MAX ≤ now.sec + ctrunc timeout →
      (deadline_from_timeout timeout now).sec = INT_MAX) := by
  simp only [deadline_from_timeout, INT_MAX] at *
  constructor
  · split_ifs <;> omega
  · intro hsat
    split_ifs <;> omega

theorem claim_C8_witness :
    ((deadline_from_timeout (10 ^ 100) ⟨1700000000, 500000⟩).sec ≤ INT_MAX ∧
      (INT_MAX ≤ (1700000000 : Int) + ctrunc (10 ^ 100) →
        (deadline_from_timeout (10 ^ 100) ⟨1700000000, 500000⟩).sec = INT_MAX)) ∧
    (deadline_from_timeout (10 ^ 100) ⟨1700000000, 500000⟩).sec = INT_MAX := by
  have h := claim_C8_deadline_saturation (10 ^ 100) ⟨1700000000, 500000⟩
    (by positivity) (by decide)
  have hc : ctrunc ((10 : ℚ) ^ 100) = 10 ^ 100 := by
    have hnum : ((10 : ℚ) ^ 100).num = 10 ^ 100 := by
      rw [Rat.num_pow]
      norm_num
    have hden : ((10 : ℚ) ^ 100).den = 1 := by
      rw [Rat.den_pow]
      norm_num
    rw [ctrunc, hnum, hden]
    simp
  exact ⟨h, h.2 (by rw [hc]; norm_num [INT_MAX])⟩

/-- Claim C9: for acquire on Lock or RLock, a negative timeout other
than the exact sentinel `-1` is rejected with `ValueError`, and a
non-blocking call (`blocking = 0`) combined with any timeout other than
the sentinel is rejected with `ValueError`; in both cases the error
comes out of the argument parser, before the lock's semaphore, owner or
count is touched — the acquire functions return the error with the
state exactly as passed in. -/
theorem claim_C9_argument_errors :
    (∀ (blocking : Int) (v : ℚ), v < 0 → v ≠ -1 →
      acquire_parse_args blocking (some v) = .error .ValueError) ∧
    (∀ v : ℚ, v ≠ -1 → acquire_parse_args 0 (some v) = .error .ValueError) ∧
    (∀ (lst : LockState) (rst : RLockState) (tid blocking : Int) (obj : Option ℚ)
      (e : PyErr), acquire_parse_args blocking obj = .error e →
      Lock_acquire lst tid blocking obj = some (.error e, lst) ∧
      RLock_acquire rst tid blocking obj = some (.error e, rst)) := by
  refine ⟨?_, ?_, ?_⟩
  · intro blocking v hneg hne
    simp [acquire_parse_args, parse_timeout, UNLIMITED, hneg, hne]
  · intro v hne
    by_cases hneg : v < 0
    · simp [acquire_parse_args, parse_timeout, UNLIMITED, hneg, hne]
    · simp [acquire_parse_args, parse_timeout, UNLIMITED, hneg, hne]
  · intro lst rst tid blocking obj e hargs
    exact ⟨by simp [Lock_acquire, hargs], by simp [RLock_acquire, hargs]⟩

theorem claim_C9_witness :
    acquire_parse_args 1 (some (-5)) = .error .ValueError ∧
    acquire_parse_args 0 (some 2) = .error .ValueError ∧
    (Lock_acquire ⟨1, 0⟩ 7 0 (some 2) = some (.error .ValueError, ⟨1, 0⟩) ∧
      RLock_acquire ⟨1, 0, 0⟩ 7 0 (some 2) = some (.error .ValueError, ⟨1, 0, 0⟩)) :=
  ⟨claim_C9_argument_errors.1 1 (-5) (by norm_num) (by norm_num),
   claim_C9_argument_errors.2.1 2 (by norm_num),
   claim_C9_argument_errors.2.2 ⟨1, 0⟩ ⟨1, 0, 0⟩ 7 0 (some 2) .ValueError
     (claim_C9_argument_errors.2.1 2 (by norm_num))⟩

/-- Claim C10 fails on the code: the carry condition at
`_cthreading.c:69` is `tv_usec > 1000000` (strict), so when the current
microseconds plus the timeout's fractional-second microseconds sum to
exactly 1,000,000 no carry is performed and the deadline's nanosecond
field equals exactly 1,000,000,000 — not a valid `timespec`
(`sem_timedwait` rejects it with EINVAL).  Witnessed here with the
current time at `.500000` microseconds and a timeout of `0.5` seconds. -/
theorem claim_C10_boundary_bug :
    deadline_from_timeout (1 / 2) ⟨1000, 500000⟩ = ⟨1000, 1000000000⟩ ∧
    ¬ (deadline_from_timeout (1 / 2) ⟨1000, 500000⟩).nsec < 1000000000 := by
  have h12 : ctrunc (1 / 2 : ℚ) = 0 := by
    have hnum : ((1 : ℚ) / 2).num = 1 := by norm_num
    have hden : ((1 : ℚ) / 2).den = 2 := by norm_num
    rw [ctrunc, hnum, hden]
    decide
  have h5 : ctrunc (500000 : ℚ) = 500000 := by
    have hnum : (500000 : ℚ).num = 500000 := by norm_num
    have hden : (500000 : ℚ).den = 1 := by norm_num
    rw [ctrunc, hnum, hden]
    decide
  have heval : deadline_from_timeout (1 / 2) ⟨1000, 500000⟩ = ⟨1000, 1000000000⟩ := by
    simp only [deadline_from_timeout, h12, INT_MAX]
    norm_num [h5]
  exact ⟨heval, by rw [heval]; norm_num⟩
